import Mathlib

/-!
Verification of the terara binary object codec and document model.

This file shallowly embeds the Go packages `pkg/types` (storage.go scalar
codec part, composites.go) and `pkg/storage` (storage.go Document wrapper)
and proves/refutes the frozen specification claims about them.

Modelling conventions:
* Byte buffers are `List Nat` (each entry a byte value 0..255).
* Go `(value, int, error)` returns become `Res (α × Nat)`; a Go runtime
  panic from indexing past the end of a slice is modelled by the explicit
  outcome `Res.oob` (index out of range).
* Go `int32`/`int64` values are Lean `Int` with explicit two's-complement
  conversion through `% 2^32` / `% 2^64` at the codec boundary, exactly
  where Go casts through `uint32`/`uint64`.
* Go `float64` payloads are modelled by their IEEE-754 bit pattern
  (a `Nat < 2^64`), because the codec only moves the bits: it encodes
  `math.Float64bits(f)` big-endian and decodes with `math.Float64frombits`,
  both exact bit casts.
* Go's `map[string]types.Object` document field map is modelled as an
  association list `KV` whose insert (`kvInsert`) overwrites in place,
  so key sets built from the empty map are automatically duplicate-free,
  as for a Go map.
-/

/-- Error kinds of the codec: `ErrInvalidLength`, `ErrInvalidType` and
`ErrInvalidDocument` from pkg/types, `ErrStaticDocument` from pkg/storage. -/
inductive Err where
  | invalidLength
  | invalidType
  | invalidDocument
  | staticDocument
deriving DecidableEq, Repr

/-- Outcome of a Go call that returns `(α, error)`: success, a returned
error, or a runtime crash (`oob` models a Go index-out-of-range panic). -/
inductive Res (α : Type) where
  | ok (a : α)
  | err (e : Err)
  | oob
deriving DecidableEq, Repr

/- Type tag bytes, from the `iota` block in pkg/types (storage.go).
Only the tags the codec dispatches on are named here; the intermediate
reserved tags (BigInt .. CountryCode, 7..8 and 11..23) are never produced
or consumed by any modelled function. -/

def NullType : Nat := 0
def BoolType : Nat := 1
def Int64Type : Nat := 2
def Int32Type : Nat := 3
def FloatType : Nat := 4
def StringType : Nat := 5
def CharType : Nat := 6
def ArrayType : Nat := 9
def DocumentType : Nat := 10
def EOFType : Nat := 24
def NameType : Nat := 25
def LastType : Nat := 26

/-- NullTerm, the 0x00 string terminator. -/
def NullTerm : Nat := 0

/-- IsInternal from pkg/types: EOF, Name and Last are internal framing tags. -/
def IsInternal (t : Nat) : Bool :=
  t == EOFType || t == NameType || t == LastType

/-- The closed set of values the codec's encode/decode dispatch handles:
Null, Bool, Int64, Int32, Float, String, Char, the internal markers EOF and
Name, and Array.  (Go's `MarshalObject`/`UnmarshalObject` switch has exactly
these cases; every other tag falls to the `ErrInvalidType` default.) -/
inductive Val where
  | null
  | bool (b : Bool)
  | int64 (i : Int)
  | int32 (i : Int)
  | float (bits : Nat)
  | str (s : List Nat)
  | char (c : Nat)
  | eofV
  | name (s : List Nat)
  | arr (xs : List Val)

/-- Type of a value, mirroring each Go `Type()` method. -/
def typeOf : Val → Nat
  | .null => NullType
  | .bool _ => BoolType
  | .int64 _ => Int64Type
  | .int32 _ => Int32Type
  | .float _ => FloatType
  | .str _ => StringType
  | .char _ => CharType
  | .eofV => EOFType
  | .name _ => NameType
  | .arr _ => ArrayType

/-- boolToByte from pkg/types. -/
def boolToByte (b : Bool) : Nat := if b then 1 else 0

/-- byteToBool from pkg/types: only the byte 1 decodes to true. -/
def byteToBool (b : Nat) : Bool := b == 1

/-- binary.BigEndian.PutUint32: big-endian bytes of a 32-bit word. -/
def putUint32 (n : Nat) : List Nat :=
  [n / 16777216 % 256, n / 65536 % 256, n / 256 % 256, n % 256]

/-- binary.BigEndian.PutUint64: big-endian bytes of a 64-bit word. -/
def putUint64 (n : Nat) : List Nat :=
  [n / 72057594037927936 % 256, n / 281474976710656 % 256,
   n / 1099511627776 % 256, n / 4294967296 % 256,
   n / 16777216 % 256, n / 65536 % 256, n / 256 % 256, n % 256]

/-- binary.BigEndian.Uint32 over four bytes. -/
def getUint32 (b1 b2 b3 b4 : Nat) : Nat :=
  b1 * 16777216 + b2 * 65536 + b3 * 256 + b4

/-- binary.BigEndian.Uint64 over eight bytes. -/
def getUint64 (b1 b2 b3 b4 b5 b6 b7 b8 : Nat) : Nat :=
  b1 * 72057594037927936 + b2 * 281474976710656 + b3 * 1099511627776 +
  b4 * 4294967296 + b5 * 16777216 + b6 * 65536 + b7 * 256 + b8

/-- Go's `uint32(i)` on an `int32` value: the two's-complement bit pattern. -/
def uint32OfInt32 (i : Int) : Nat := (i % 4294967296).toNat

/-- Go's `int32(u)` on a `uint32` word: two's-complement reinterpretation. -/
def int32OfUint32 (u : Nat) : Int :=
  if u < 2147483648 then (u : Int) else (u : Int) - 4294967296

/-- Go's `uint64(i)` on an `int64` value. -/
def uint64OfInt64 (i : Int) : Nat := (i % 18446744073709551616).toNat

/-- Go's `int64(u)` on a `uint64` word. -/
def int64OfUint64 (u : Nat) : Int :=
  if u < 9223372036854775808 then (u : Int) else (u : Int) - 18446744073709551616

/-- Name.MarshalObject: tag byte, raw name bytes, 0x00 terminator. -/
def marshalName (s : List Nat) : List Nat := NameType :: s ++ [NullTerm]

mutual
/-- MarshalObject from pkg/types: dispatch on the value's own tag to the
per-type `MarshalObject` methods.  Over the closed `Val` set every case
succeeds, so the result is a plain byte list (the Go function's
`ErrInvalidType` default arm is unreachable here).  Note Array's case
appends the element encodings with NO EndOfStream terminator, exactly as
`Array.MarshalObject` in composites.go does. -/
def MarshalObject : Val → List Nat
  | .null => [NullType]
  | .bool b => [BoolType, boolToByte b]
  | .int64 i => Int64Type :: putUint64 (uint64OfInt64 i)
  | .int32 i => Int32Type :: putUint32 (uint32OfInt32 i)
  | .float bits => FloatType :: putUint64 bits
  | .str s => StringType :: s ++ [NullTerm]
  | .char c => [CharType, c]
  | .eofV => [EOFType]
  | .name s => marshalName s
  | .arr xs => ArrayType :: marshalList xs

/-- Concatenated element encodings of Array.MarshalObject's loop. -/
def marshalList : List Val → List Nat
  | [] => []
  | v :: t => MarshalObject v ++ marshalList t
end

/-- Scan for the 0x00 terminator, as the loops in `String.UnmarshalObject`
and `Name.UnmarshalObject` do over `b[1:]`: returns the content before the
terminator and the number of bytes consumed including the terminator, or
`none` when no terminator exists before the end of the buffer. -/
def scanTerm : List Nat → Option (List Nat × Nat)
  | [] => none
  | c :: rest =>
    if c = NullTerm then some ([], 1)
    else match scanTerm rest with
      | some (s, n) => some (c :: s, n + 1)
      | none => none

/-- Int64.UnmarshalObject: 9 bytes, length checked before the tag. -/
def UnmarshalInt64 (b : List Nat) : Res (Val × Nat) :=
  match b with
  | t :: b1 :: b2 :: b3 :: b4 :: b5 :: b6 :: b7 :: b8 :: _ =>
    if t = Int64Type then
      .ok (.int64 (int64OfUint64 (getUint64 b1 b2 b3 b4 b5 b6 b7 b8)), 9)
    else .err .invalidType
  | _ => .err .invalidLength

/-- Int32.UnmarshalObject: 5 bytes, length checked before the tag. -/
def UnmarshalInt32 (b : List Nat) : Res (Val × Nat) :=
  match b with
  | t :: b1 :: b2 :: b3 :: b4 :: _ =>
    if t = Int32Type then
      .ok (.int32 (int32OfUint32 (getUint32 b1 b2 b3 b4)), 5)
    else .err .invalidType
  | _ => .err .invalidLength

/-- Float.UnmarshalObject: 9 bytes; the decoded value is the bit pattern
(`math.Float64frombits` is a bit cast). -/
def UnmarshalFloat (b : List Nat) : Res (Val × Nat) :=
  match b with
  | t :: b1 :: b2 :: b3 :: b4 :: b5 :: b6 :: b7 :: b8 :: _ =>
    if t = FloatType then
      .ok (.float (getUint64 b1 b2 b3 b4 b5 b6 b7 b8), 9)
    else .err .invalidType
  | _ => .err .invalidLength

/-- String.UnmarshalObject: length >= 2 checked first, then the tag, then
the scan for the 0x00 terminator (missing terminator: ErrInvalidLength). -/
def UnmarshalString (b : List Nat) : Res (Val × Nat) :=
  match b with
  | t :: c :: rest =>
    if t = StringType then
      match scanTerm (c :: rest) with
      | some (s, n) => .ok (.str s, n + 1)
      | none => .err .invalidLength
    else .err .invalidType
  | _ => .err .invalidLength

/-- Bool.UnmarshalObject.  The Go method only checks `len(by) < 1` and then
reads `by[1]` unconditionally, so a 1-byte buffer with the Bool tag runs
off the end of the slice: that outcome is `.oob`. -/
def UnmarshalBool (b : List Nat) : Res (Val × Nat) :=
  match b with
  | [] => .err .invalidLength
  | t :: rest =>
    if t = BoolType then
      match rest with
      | x :: _ => .ok (.bool (byteToBool x), 2)
      | [] => .oob
    else .err .invalidType

/-- Null.UnmarshalObject: tag byte only. -/
def UnmarshalNull (b : List Nat) : Res (Val × Nat) :=
  match b with
  | [] => .err .invalidLength
  | t :: _ => if t = NullType then .ok (.null, 1) else .err .invalidType

/-- Char.UnmarshalObject: 2 bytes, length checked before the tag. -/
def UnmarshalChar (b : List Nat) : Res (Val × Nat) :=
  match b with
  | t :: x :: _ =>
    if t = CharType then .ok (.char x, 2) else .err .invalidType
  | _ => .err .invalidLength

/-- EOF.UnmarshalObject: tag byte only. -/
def UnmarshalEOF (b : List Nat) : Res (Val × Nat) :=
  match b with
  | [] => .err .invalidLength
  | t :: _ => if t = EOFType then .ok (.eofV, 1) else .err .invalidType

/-- Name.UnmarshalObject, returning the raw name bytes (the Document
decode loops call this directly for field keys). -/
def UnmarshalNameRaw (b : List Nat) : Res (List Nat × Nat) :=
  match b with
  | t :: c :: rest =>
    if t = NameType then
      match scanTerm (c :: rest) with
      | some (s, n) => .ok (s, n + 1)
      | none => .err .invalidLength
    else .err .invalidType
  | _ => .err .invalidLength

/-- Name decode as an `Object`, for the generic dispatch. -/
def UnmarshalName (b : List Nat) : Res (Val × Nat) :=
  match UnmarshalNameRaw b with
  | .ok (s, n) => .ok (.name s, n)
  | .err e => .err e
  | .oob => .oob

mutual
/-- UnmarshalObject from pkg/types: generic decode dispatch on the leading
tag byte; an unknown tag is ErrInvalidType, an empty buffer
ErrInvalidLength.  The case order follows the Go switch. -/
def UnmarshalObject (b : List Nat) : Res (Val × Nat) :=
  match b with
  | [] => .err .invalidLength
  | t :: rest =>
    if t = Int64Type then UnmarshalInt64 b
    else if t = Int32Type then UnmarshalInt32 b
    else if t = FloatType then UnmarshalFloat b
    else if t = StringType then UnmarshalString b
    else if t = BoolType then UnmarshalBool b
    else if t = NullType then UnmarshalNull b
    else if t = CharType then UnmarshalChar b
    else if t = EOFType then UnmarshalEOF b
    else if t = NameType then UnmarshalName b
    else if t = ArrayType then
      match arrayLoop rest with
      | .ok (vs, n) => .ok (.arr vs, 1 + n)
      | .err e => .err e
      | .oob => .oob
    else .err .invalidType
termination_by 3 * b.length + 1
decreasing_by
  all_goals simp_wf
  all_goals omega

/-- The element loop of Array.UnmarshalObject over the bytes after the
Array tag.  The Go loop reads `b[count]` each round; when the cursor
reaches the end of the buffer without having met an EndOfStream byte that
read is out of range (`.oob`).  There is NO IsInternal check here (unlike
Document decode), so internal marker values decode as plain elements.
The count returned does not include the terminating EndOfStream byte,
which the loop peeks at but never steps over. -/
def arrayLoop (s : List Nat) : Res (List Val × Nat) :=
  match s with
  | [] => .oob
  | c :: rest =>
    if c = EOFType then .ok ([], 0)
    else
      match UnmarshalObject (c :: rest) with
      | .ok (v, n) =>
        if _h : n = 0 then
          -- dead branch: every successful decode consumes at least one
          -- byte (UnmarshalObject_consumes_pos below), and the Go loop
          -- would not advance here
          .oob
        else
          match arrayLoop ((c :: rest).drop n) with
          | .ok (vs, m) => .ok (v :: vs, n + m)
          | .err e => .err e
          | .oob => .oob
      | .err e => .err e
      | .oob => .oob
termination_by 3 * s.length + 2
decreasing_by
  all_goals simp_wf
  all_goals omega
end

/-- A document field map, modelling Go's `map[string]types.Object`: keys
are the raw bytes of the field-name string. -/
abbrev KV := List (List Nat × Val)

/-- Go map assignment `kv[k] = v`: overwrite the existing binding in place
or add a new one. -/
def kvInsert (m : KV) (k : List Nat) (v : Val) : KV :=
  match m with
  | [] => [(k, v)]
  | (k', v') :: t => if k' = k then (k, v) :: t else (k', v') :: kvInsert t k v

/-- Go map lookup `kv[k]` (whether the key is bound). -/
def kvGet (m : KV) (k : List Nat) : Option Val :=
  match m with
  | [] => none
  | (k', v) :: t => if k' = k then some v else kvGet t k

/-- Go map `delete(kv, k)`. -/
def kvErase (m : KV) (k : List Nat) : KV :=
  match m with
  | [] => []
  | (k', v) :: t => if k' = k then t else (k', v) :: kvErase t k

/-- Sequential Go map insertion of a list of fields, as the decode loops
perform it (last write wins on duplicate keys). -/
def kvInsertAll (m : KV) (fs : KV) : KV :=
  match fs with
  | [] => m
  | (k, v) :: t => kvInsertAll (kvInsert m k v) t

/-- The bytes of the field name "id". -/
def idKey : List Nat := [105, 100]

/-- The Document wrapper from pkg/storage: the field map, the modified
flag and the static (immutability) flag.  The db/collection/transaction
handles and the cached storage key of the Go struct play no part in any
modelled operation and are omitted. -/
structure Document where
  kv : KV
  modified : Bool
  static : Bool

/-- NewDocument: fresh writable wrapper with an empty field map. -/
def NewDocument : Document := ⟨[], false, false⟩

/-- NewStaticDocument: fresh wrapper with the static flag set. -/
def NewStaticDocument : Document := ⟨[], false, true⟩

/-- Document.ID: the value bound to "id" (Go returns the map's zero value,
a nil interface, when the key is unbound — here `none`). -/
def Document.id (d : Document) : Option Val := kvGet d.kv idKey

/-- Document.Set: rejected with ErrStaticDocument on a static wrapper;
otherwise binds the key and marks the document modified. -/
def Document.set (d : Document) (key : List Nat) (v : Val) :
    Document × Option Err :=
  if d.static then (d, some .staticDocument)
  else ({ d with kv := kvInsert d.kv key v, modified := true }, none)

/-- Document.Del: rejected with ErrStaticDocument on a static wrapper;
otherwise removes the key (absent keys are not an error) and marks the
document modified. -/
def Document.del (d : Document) (key : List Nat) : Document × Option Err :=
  if d.static then (d, some .staticDocument)
  else ({ d with kv := kvErase d.kv key, modified := true }, none)

/-- The field loop of Document.UnmarshalObject over the bytes after the
Document tag.  The map is threaded through because the Go method writes
each decoded field into `d.kv` immediately, so on an error the caller
keeps the partially updated map.  As in `arrayLoop`, reading `b[count]`
with the cursor at the end of the buffer is out of range (`.oob`); the
returned count does not include the terminating EndOfStream byte.  (The
Go loop's own `len(b) < 1` check re-tests the full buffer each round and
can never fire here, the caller having already required `len(b) >= 1`.) -/
def docLoop (kv : KV) (s : List Nat) : KV × Res Nat :=
  match s with
  | [] => (kv, .oob)
  | c :: rest =>
    if c = EOFType then (kv, .ok 0)
    else
      match UnmarshalNameRaw (c :: rest) with
      | .ok (nm, n1) =>
        match UnmarshalObject ((c :: rest).drop n1) with
        | .ok (v, n2) =>
          if IsInternal (typeOf v) then (kv, .err .invalidDocument)
          else if _h : n1 + n2 = 0 then
            -- dead branch: name and value decodes each consume at least
            -- one byte, and the Go loop would not advance here
            (kv, .oob)
          else
            match docLoop (kvInsert kv nm v) ((c :: rest).drop (n1 + n2)) with
            | (kv2, .ok m) => (kv2, .ok (n1 + n2 + m))
            | (kv2, r) => (kv2, r)
        | .err e => (kv, .err e)
        | .oob => (kv, .oob)
      | .err e => (kv, .err e)
      | .oob => (kv, .oob)
termination_by s.length
decreasing_by
  all_goals simp_wf
  all_goals omega

/-- Document.UnmarshalObject: empty buffer is ErrInvalidLength, a leading
byte other than the Document tag is ErrInvalidType; then the field loop
runs, and only after it finishes is the presence of an "id" binding in
the (already updated) map checked, failing with ErrInvalidDocument. -/
def Document.unmarshalObject (d : Document) (b : List Nat) :
    Document × Res Nat :=
  match b with
  | [] => (d, .err .invalidLength)
  | t :: rest =>
    if t = DocumentType then
      match docLoop d.kv rest with
      | (kv2, .ok m) =>
        if (kvGet kv2 idKey).isSome then ({ d with kv := kv2 }, .ok (1 + m))
        else ({ d with kv := kv2 }, .err .invalidDocument)
      | (kv2, .err e) => ({ d with kv := kv2 }, .err e)
      | (kv2, .oob) => ({ d with kv := kv2 }, .oob)
    else (d, .err .invalidType)

/-- Membership test of Document.Project's `inKey` closure: byte equality
of the decoded field name with any requested key. -/
def inKey (name : List Nat) (keys : List (List Nat)) : Bool :=
  keys.any (fun k => name == k)

/-- The field loop of Document.Project: every field's name and value are
decoded to advance the cursor, but only fields whose name is in the
requested key set are inserted (and only for those is the decoded value
checked against the internal-marker tags). -/
def projLoop (keys : List (List Nat)) (kv : KV) (s : List Nat) :
    KV × Res Nat :=
  match s with
  | [] => (kv, .oob)
  | c :: rest =>
    if c = EOFType then (kv, .ok 0)
    else
      match UnmarshalNameRaw (c :: rest) with
      | .ok (nm, n1) =>
        match UnmarshalObject ((c :: rest).drop n1) with
        | .ok (v, n2) =>
          if inKey nm keys then
            if IsInternal (typeOf v) then (kv, .err .invalidDocument)
            else if _h : n1 + n2 = 0 then (kv, .oob)
            else
              match projLoop keys (kvInsert kv nm v)
                  ((c :: rest).drop (n1 + n2)) with
              | (kv2, .ok m) => (kv2, .ok (n1 + n2 + m))
              | (kv2, r) => (kv2, r)
          else if _h : n1 + n2 = 0 then (kv, .oob)
          else
            match projLoop keys kv ((c :: rest).drop (n1 + n2)) with
            | (kv2, .ok m) => (kv2, .ok (n1 + n2 + m))
            | (kv2, r) => (kv2, r)
        | .err e => (kv, .err e)
        | .oob => (kv, .oob)
      | .err e => (kv, .err e)
      | .oob => (kv, .oob)
termination_by s.length
decreasing_by
  all_goals simp_wf
  all_goals omega

/-- Document.Project: a request for zero keys returns 0 immediately, even
before the buffer length and tag checks; otherwise the projection loop
runs.  There is no "id" presence check on this path. -/
def Document.project (d : Document) (b : List Nat)
    (keys : List (List Nat)) : Document × Res Nat :=
  if keys = [] then (d, .ok 0)
  else
    match b with
    | [] => (d, .err .invalidLength)
    | t :: rest =>
      if t = DocumentType then
        match projLoop keys d.kv rest with
        | (kv2, .ok m) => ({ d with kv := kv2 }, .ok (1 + m))
        | (kv2, .err e) => ({ d with kv := kv2 }, .err e)
        | (kv2, .oob) => ({ d with kv := kv2 }, .oob)
      else (d, .err .invalidType)

/-- Concatenated per-field bytes of GenericDocumentUnmarshaler's loop:
each field's key as a Name encoding followed by the value's encoding. -/
def encodeFields (fs : KV) : List Nat :=
  match fs with
  | [] => []
  | (k, v) :: t => marshalName k ++ MarshalObject v ++ encodeFields t

/-- GenericDocumentUnmarshaler from pkg/types (despite its name it is the
document SERIALIZER, and Document.MarshalObject delegates to it): tag
byte, the per-field encodings in field order, and a final EndOfStream
byte; it fails with ErrInvalidDocument when ID() is nil, i.e. when no
"id" key is bound.  Over the closed `Val` set the per-value marshal calls
cannot fail, so that is the only error.  The field order is the Go map's
iteration order; here it is the association list's order, over which the
round-trip theorems quantify. -/
def GenericDocumentUnmarshaler (d : Document) : Res (List Nat) :=
  if (kvGet d.kv idKey).isSome then
    .ok (DocumentType :: encodeFields d.kv ++ [EOFType])
  else .err .invalidDocument

/-- The full encoded byte stream of a document with field list `fs`. -/
def docBytes (fs : KV) : List Nat :=
  DocumentType :: encodeFields fs ++ [EOFType]

/-- Well-formed scalar values: the value domain over which the spec's
round-trip properties are stated.  Int32/Int64 payloads lie in their
two's-complement ranges, Char and String payloads are bytes, Float
payloads are 64-bit patterns, and — per the spec's §4.1 wire layout —
String content carries no embedded 0x00.  Internal markers (EOF, Name)
and composites (Array) are not well-formed scalars. -/
def wfVal : Val → Bool
  | .null => true
  | .bool _ => true
  | .int64 i => decide (-9223372036854775808 ≤ i) && decide (i < 9223372036854775808)
  | .int32 i => decide (-2147483648 ≤ i) && decide (i < 2147483648)
  | .float bits => decide (bits < 18446744073709551616)
  | .str s => s.all (fun c => decide (c ≠ 0) && decide (c < 256))
  | .char c => decide (c < 256)
  | .eofV => false
  | .name _ => false
  | .arr _ => false

/-- Well-formed field names: byte content with no embedded 0x00. -/
def wfName (s : List Nat) : Bool :=
  s.all (fun c => decide (c ≠ 0) && decide (c < 256))

/-- Well-formed field lists: every key a well-formed name, every value a
well-formed scalar. -/
def wfFields (fs : KV) : Bool :=
  fs.all (fun p => wfName p.1 && wfVal p.2)

theorem int32OfUint32_uint32OfInt32 (i : Int)
    (h1 : -2147483648 ≤ i) (h2 : i < 2147483648) :
    int32OfUint32 (uint32OfInt32 i) = i := by
  unfold int32OfUint32 uint32OfInt32
  split <;> omega

theorem int64OfUint64_uint64OfInt64 (i : Int)
    (h1 : -9223372036854775808 ≤ i) (h2 : i < 9223372036854775808) :
    int64OfUint64 (uint64OfInt64 i) = i := by
  unfold int64OfUint64 uint64OfInt64
  split <;> omega

theorem uint32OfInt32_lt (i : Int) : uint32OfInt32 i < 4294967296 := by
  unfold uint32OfInt32; omega

theorem uint64OfInt64_lt (i : Int) : uint64OfInt64 i < 18446744073709551616 := by
  unfold uint64OfInt64; omega

theorem getUint32_put (n : Nat) (h : n < 4294967296) :
    getUint32 (n / 16777216 % 256) (n / 65536 % 256) (n / 256 % 256)
      (n % 256) = n := by
  unfold getUint32; omega

theorem getUint64_put (n : Nat) (h : n < 18446744073709551616) :
    getUint64 (n / 72057594037927936 % 256) (n / 281474976710656 % 256)
      (n / 1099511627776 % 256) (n / 4294967296 % 256)
      (n / 16777216 % 256) (n / 65536 % 256) (n / 256 % 256)
      (n % 256) = n := by
  unfold getUint64; omega

theorem scanTerm_append (s rest : List Nat) (h : ∀ c ∈ s, c ≠ 0) :
    scanTerm (s ++ 0 :: rest) = some (s, s.length + 1) := by
  induction s with
  | nil => simp [scanTerm, NullTerm]
  | cons a t ih =>
    have ha : a ≠ 0 := h a (by simp)
    simp only [List.cons_append, scanTerm, NullTerm, if_neg ha, List.append_eq]
    rw [ih (fun c hc => h c (by simp [hc]))]
    simp

theorem UnmarshalString_cons (tl : List Nat) (hne : tl ≠ []) :
    UnmarshalString (StringType :: tl) =
      match scanTerm tl with
      | some (s, n) => .ok (.str s, n + 1)
      | none => .err .invalidLength := by
  match tl with
  | [] => exact absurd rfl hne
  | c :: rest => simp [UnmarshalString]

theorem UnmarshalNameRaw_cons (tl : List Nat) (hne : tl ≠ []) :
    UnmarshalNameRaw (NameType :: tl) =
      match scanTerm tl with
      | some (s, n) => .ok (s, n + 1)
      | none => .err .invalidLength := by
  match tl with
  | [] => exact absurd rfl hne
  | c :: rest => simp [UnmarshalNameRaw]

theorem UnmarshalNameRaw_marshalName (s rest : List Nat)
    (h : wfName s = true) :
    UnmarshalNameRaw (marshalName s ++ rest) = .ok (s, s.length + 2) := by
  have h0 : ∀ c ∈ s, c ≠ 0 := by
    intro c hc
    have := (List.all_eq_true.mp h) c hc
    simpa using (Bool.and_elim_left this)
  have hne : s ++ 0 :: rest ≠ [] := by
    cases s <;> simp
  simp only [marshalName, NullTerm, List.cons_append, List.append_assoc,
    List.singleton_append, List.nil_append]
  rw [UnmarshalNameRaw_cons _ hne, scanTerm_append s rest h0]

theorem wfVal_str_ne_zero {s : List Nat} (h : wfVal (.str s) = true) :
    ∀ c ∈ s, c ≠ 0 := by
  intro c hc
  have := (List.all_eq_true.mp h) c hc
  simpa using (Bool.and_elim_left this)

theorem wfName_ne_zero {s : List Nat} (h : wfName s = true) :
    ∀ c ∈ s, c ≠ 0 := by
  intro c hc
  have := (List.all_eq_true.mp h) c hc
  simpa using (Bool.and_elim_left this)

/-- Round-trip of the generic dispatch over any well-formed scalar
encoding, with arbitrary trailing bytes: the value comes back exactly and
the count is the encoding's length.  This is the workhorse behind the
document-level theorems. -/
theorem UnmarshalObject_marshal (v : Val) (hv : wfVal v = true)
    (rest : List Nat) :
    UnmarshalObject (MarshalObject v ++ rest) =
      .ok (v, (MarshalObject v).length) := by
  cases v with
  | null =>
    simp [MarshalObject, UnmarshalObject, UnmarshalNull, NullType, BoolType,
      Int64Type, Int32Type, FloatType, StringType, CharType]
  | bool b =>
    cases b <;>
      simp [MarshalObject, UnmarshalObject, UnmarshalBool, boolToByte,
        byteToBool, NullType, BoolType, Int64Type, Int32Type, FloatType,
        StringType, CharType]
  | char c =>
    simp [MarshalObject, UnmarshalObject, UnmarshalChar, NullType, BoolType,
      Int64Type, Int32Type, FloatType, StringType, CharType]
  | int64 i =>
    simp only [wfVal, Bool.and_eq_true, decide_eq_true_eq] at hv
    simp only [MarshalObject, putUint64, List.cons_append, UnmarshalObject,
      UnmarshalInt64, NullType, BoolType, Int64Type, Int32Type, FloatType,
      StringType, CharType, List.length_cons, List.length_nil]
    norm_num
    rw [getUint64_put _ (uint64OfInt64_lt i),
      int64OfUint64_uint64OfInt64 i hv.1 hv.2]
  | int32 i =>
    simp only [wfVal, Bool.and_eq_true, decide_eq_true_eq] at hv
    simp only [MarshalObject, putUint32, List.cons_append, UnmarshalObject,
      UnmarshalInt32, NullType, BoolType, Int64Type, Int32Type, FloatType,
      StringType, CharType, List.length_cons, List.length_nil]
    norm_num
    rw [getUint32_put _ (uint32OfInt32_lt i),
      int32OfUint32_uint32OfInt32 i hv.1 hv.2]
  | float bits =>
    simp only [wfVal, decide_eq_true_eq] at hv
    simp only [MarshalObject, putUint64, List.cons_append, UnmarshalObject,
      UnmarshalFloat, NullType, BoolType, Int64Type, Int32Type, FloatType,
      StringType, CharType, List.length_cons, List.length_nil]
    norm_num
    rw [getUint64_put _ hv]
  | str s =>
    have h0 : ∀ c ∈ s, c ≠ 0 := wfVal_str_ne_zero hv
    have hne : s ++ 0 :: rest ≠ [] := by cases s <;> simp
    simp only [MarshalObject, NullTerm, List.cons_append, List.append_assoc,
      List.singleton_append, List.nil_append]
    rw [show UnmarshalObject (StringType :: (s ++ 0 :: rest)) =
        UnmarshalString (StringType :: (s ++ 0 :: rest)) by
      simp [UnmarshalObject, NullType, BoolType, Int64Type, Int32Type,
        FloatType, StringType, CharType]]
    rw [UnmarshalString_cons _ hne, scanTerm_append s rest h0]
    simp
  | eofV => simp [wfVal] at hv
  | name s => simp [wfVal] at hv
  | arr xs => simp [wfVal] at hv

theorem wfVal_not_internal {v : Val} (h : wfVal v = true) :
    IsInternal (typeOf v) = false := by
  cases v <;> simp_all [wfVal, typeOf, IsInternal, NullType, BoolType,
    Int64Type, Int32Type, FloatType, StringType, CharType, EOFType,
    NameType, LastType]

theorem wfFields_cons {k : List Nat} {v : Val} {t : KV}
    (h : wfFields ((k, v) :: t) = true) :
    wfName k = true ∧ wfVal v = true ∧ wfFields t = true := by
  simp only [wfFields, List.all_cons, Bool.and_eq_true] at h ⊢
  exact ⟨h.1.1, h.1.2, h.2⟩

theorem marshalName_length (k : List Nat) :
    (marshalName k).length = k.length + 2 := by
  simp [marshalName]

/-- Running the field loop of Document.UnmarshalObject over the encoding
of a well-formed field list inserts exactly those fields, in order, into
the given map, and consumes every byte up to (but not including) the
EndOfStream terminator. -/
theorem docLoop_encodeFields :
    ∀ (fs : KV) (kv : KV), wfFields fs = true →
      docLoop kv (encodeFields fs ++ [EOFType]) =
        (kvInsertAll kv fs, .ok (encodeFields fs).length) := by
  intro fs
  induction fs with
  | nil =>
    intro kv _
    simp [encodeFields, docLoop, kvInsertAll]
  | cons p t ih =>
    intro kv h
    obtain ⟨k, v⟩ := p
    obtain ⟨hk, hv, ht⟩ := wfFields_cons h
    have hshape : encodeFields ((k, v) :: t) ++ [EOFType] =
        NameType :: (k ++ 0 ::
          (MarshalObject v ++ (encodeFields t ++ [EOFType]))) := by
      simp [encodeFields, marshalName, NullTerm]
    have hNE : (NameType : Nat) ≠ EOFType := by decide
    have hfold : NameType :: (k ++ 0 ::
        (MarshalObject v ++ (encodeFields t ++ [EOFType]))) =
        marshalName k ++ (MarshalObject v ++ (encodeFields t ++ [EOFType])) := by
      simp [marshalName, NullTerm]
    have e1 : UnmarshalNameRaw (NameType :: (k ++ 0 ::
        (MarshalObject v ++ (encodeFields t ++ [EOFType])))) =
        .ok (k, k.length + 2) := by
      rw [hfold]
      exact UnmarshalNameRaw_marshalName k _ hk
    have e2 : (NameType :: (k ++ 0 ::
        (MarshalObject v ++ (encodeFields t ++ [EOFType])))).drop
          (k.length + 2) =
        MarshalObject v ++ (encodeFields t ++ [EOFType]) := by
      rw [hfold]
      exact List.drop_left' (marshalName_length k)
    have e3 : UnmarshalObject (MarshalObject v ++ (encodeFields t ++ [EOFType])) =
        .ok (v, (MarshalObject v).length) :=
      UnmarshalObject_marshal v hv _
    have e4 : (NameType :: (k ++ 0 ::
        (MarshalObject v ++ (encodeFields t ++ [EOFType])))).drop
          (k.length + 2 + (MarshalObject v).length) =
        encodeFields t ++ [EOFType] := by
      rw [hfold, ← List.append_assoc]
      refine List.drop_left' ?_
      simp [marshalName_length]
    rw [hshape]
    rw [docLoop]
    simp only [if_neg hNE, e1, e2, e3, e4, wfVal_not_internal hv,
      Bool.false_eq_true, if_false]
    have e5 : ¬ (k.length + 2 + (MarshalObject v).length = 0) := by omega
    rw [dif_neg e5]
    rw [ih (kvInsert kv k v) ht]
    simp only [kvInsertAll]
    refine Prod.ext rfl ?_
    simp [encodeFields, marshalName]
    omega

/-- Running the field loop of Document.Project over the encoding of a
well-formed field list inserts exactly the fields whose name is in the
requested key set, and consumes exactly as many bytes as the full decode
loop does. -/
theorem projLoop_encodeFields (keys : List (List Nat)) :
    ∀ (fs : KV) (kv : KV), wfFields fs = true →
      projLoop keys kv (encodeFields fs ++ [EOFType]) =
        (kvInsertAll kv (fs.filter (fun p => inKey p.1 keys)),
         .ok (encodeFields fs).length) := by
  intro fs
  induction fs with
  | nil =>
    intro kv _
    simp [encodeFields, projLoop, kvInsertAll]
  | cons p t ih =>
    intro kv h
    obtain ⟨k, v⟩ := p
    obtain ⟨hk, hv, ht⟩ := wfFields_cons h
    have hshape : encodeFields ((k, v) :: t) ++ [EOFType] =
        NameType :: (k ++ 0 ::
          (MarshalObject v ++ (encodeFields t ++ [EOFType]))) := by
      simp [encodeFields, marshalName, NullTerm]
    have hNE : (NameType : Nat) ≠ EOFType := by decide
    have hfold : NameType :: (k ++ 0 ::
        (MarshalObject v ++ (encodeFields t ++ [EOFType]))) =
        marshalName k ++ (MarshalObject v ++ (encodeFields t ++ [EOFType])) := by
      simp [marshalName, NullTerm]
    have e1 : UnmarshalNameRaw (NameType :: (k ++ 0 ::
        (MarshalObject v ++ (encodeFields t ++ [EOFType])))) =
        .ok (k, k.length + 2) := by
      rw [hfold]
      exact UnmarshalNameRaw_marshalName k _ hk
    have e2 : (NameType :: (k ++ 0 ::
        (MarshalObject v ++ (encodeFields t ++ [EOFType])))).drop
          (k.length + 2) =
        MarshalObject v ++ (encodeFields t ++ [EOFType]) := by
      rw [hfold]
      exact List.drop_left' (marshalName_length k)
    have e3 : UnmarshalObject (MarshalObject v ++ (encodeFields t ++ [EOFType])) =
        .ok (v, (MarshalObject v).length) :=
      UnmarshalObject_marshal v hv _
    have e4 : (NameType :: (k ++ 0 ::
        (MarshalObject v ++ (encodeFields t ++ [EOFType])))).drop
          (k.length + 2 + (MarshalObject v).length) =
        encodeFields t ++ [EOFType] := by
      rw [hfold, ← List.append_assoc]
      refine List.drop_left' ?_
      simp [marshalName_length]
    have e5 : ¬ (k.length + 2 + (MarshalObject v).length = 0) := by omega
    rw [hshape]
    rw [projLoop]
    simp only [if_neg hNE, e1, e2, e3, e4, wfVal_not_internal hv,
      Bool.false_eq_true, if_false]
    cases hin : inKey k keys with
    | true =>
      simp only [if_pos, dif_neg e5]
      rw [ih (kvInsert kv k v) ht]
      simp only [List.filter_cons, hin, kvInsertAll]
      refine Prod.ext rfl ?_
      simp [encodeFields, marshalName]
      omega
    | false =>
      simp only [Bool.false_eq_true, if_false, dif_neg e5]
      rw [ih kv ht]
      simp only [List.filter_cons, hin, kvInsertAll]
      refine Prod.ext rfl ?_
      simp [encodeFields, marshalName]
      omega

theorem kvGet_none_iff (m : KV) (k : List Nat) :
    kvGet m k = none ↔ k ∉ m.map Prod.fst := by
  induction m with
  | nil => simp [kvGet]
  | cons p t ih =>
    obtain ⟨k', v⟩ := p
    by_cases hk : k' = k
    · subst hk
      simp [kvGet]
    · simp [kvGet, hk, ih, Ne.symm hk]

theorem kvGet_kvInsert_ne (m : KV) (k' k : List Nat) (v : Val)
    (h : k' ≠ k) : kvGet (kvInsert m k' v) k = kvGet m k := by
  induction m with
  | nil => simp [kvInsert, kvGet, h]
  | cons p t ih =>
    obtain ⟨k'', v'⟩ := p
    by_cases hk : k'' = k'
    · subst hk
      simp [kvInsert, kvGet, h]
    · simp only [kvInsert, if_neg hk, kvGet]
      by_cases hk2 : k'' = k
      · simp [hk2]
      · simp [hk2, ih]

theorem kvGet_kvInsertAll_not_mem (fs : KV) :
    ∀ (m : KV) (k : List Nat), k ∉ fs.map Prod.fst →
      kvGet (kvInsertAll m fs) k = kvGet m k := by
  induction fs with
  | nil => intro m k _; simp [kvInsertAll]
  | cons p t ih =>
    intro m k hk
    obtain ⟨k', v⟩ := p
    simp only [List.map_cons, List.mem_cons] at hk
    push_neg at hk
    simp only [kvInsertAll]
    rw [ih _ k hk.2, kvGet_kvInsert_ne _ _ _ _ (Ne.symm hk.1)]

theorem kvInsert_append_of_not_mem (m : KV) (k : List Nat) (v : Val)
    (h : k ∉ m.map Prod.fst) : kvInsert m k v = m ++ [(k, v)] := by
  induction m with
  | nil => simp [kvInsert]
  | cons p t ih =>
    obtain ⟨k', v'⟩ := p
    simp only [List.map_cons, List.mem_cons] at h
    push_neg at h
    simp only [kvInsert, if_neg (Ne.symm h.1), List.cons_append]
    rw [ih h.2]

theorem kvInsertAll_eq_append (fs : KV) :
    ∀ (m : KV), (fs.map Prod.fst).Nodup →
      (∀ k ∈ fs.map Prod.fst, k ∉ m.map Prod.fst) →
      kvInsertAll m fs = m ++ fs := by
  induction fs with
  | nil => intro m _ _; simp [kvInsertAll]
  | cons p t ih =>
    intro m hnd hdisj
    obtain ⟨k, v⟩ := p
    simp only [List.map_cons, List.nodup_cons] at hnd
    simp only [kvInsertAll]
    rw [kvInsert_append_of_not_mem m k v
      (hdisj k (by simp))]
    rw [ih (m ++ [(k, v)]) hnd.2 ?_]
    · simp
    · intro k' hk'
      simp only [List.map_append, List.mem_append] at *
      push_neg
      constructor
      · exact hdisj k' (by simp [hk'])
      · simp only [List.map_cons, List.map_nil, List.mem_singleton]
        intro hkk
        exact hnd.1 (hkk ▸ hk')

theorem kvInsertAll_nil (fs : KV) (hnd : (fs.map Prod.fst).Nodup) :
    kvInsertAll [] fs = fs := by
  rw [kvInsertAll_eq_append fs [] hnd (by simp)]
  simp

/-- Full decode of a well-formed encoded field list into a fresh wrapper:
the loop succeeds, all fields land in the map, and then the "id" check
decides between success (with a count that excludes the EndOfStream
byte) and ErrInvalidDocument — with the map updated either way. -/
theorem documentUnmarshal_docBytes (fs : KV) (h : wfFields fs = true) :
    Document.unmarshalObject NewDocument (docBytes fs) =
      (⟨kvInsertAll [] fs, false, false⟩,
       if (kvGet (kvInsertAll [] fs) idKey).isSome then
         .ok (1 + (encodeFields fs).length)
       else .err .invalidDocument) := by
  show Document.unmarshalObject NewDocument
      (DocumentType :: (encodeFields fs ++ [EOFType])) = _
  unfold Document.unmarshalObject
  simp only [NewDocument]
  rw [docLoop_encodeFields fs [] h]
  by_cases hid : (kvGet (kvInsertAll [] fs) idKey).isSome
  · simp [hid]
  · simp only [Bool.not_eq_true] at hid
    simp [hid]

/-- Projection over a well-formed encoded field list on a fresh wrapper:
no "id" check is performed, exactly the requested fields are inserted,
and the returned count is the same as the full decode's. -/
theorem documentProject_docBytes (fs : KV) (h : wfFields fs = true)
    (keys : List (List Nat)) (hK : keys ≠ []) :
    Document.project NewDocument (docBytes fs) keys =
      (⟨kvInsertAll [] (fs.filter (fun p => inKey p.1 keys)), false, false⟩,
       .ok (1 + (encodeFields fs).length)) := by
  show Document.project NewDocument
      (DocumentType :: (encodeFields fs ++ [EOFType])) keys = _
  unfold Document.project
  simp only [NewDocument, if_neg hK]
  rw [projLoop_encodeFields keys fs [] h]
  simp

theorem docBytes_length (fs : KV) :
    (docBytes fs).length = (encodeFields fs).length + 2 := by
  simp [docBytes]

/-- Claim C1 (code_bug): the claim states Array encode is the Array tag
byte, the element encodings in order, and a final 1-byte EndOfStream
encoding.  The code's `Array.MarshalObject` writes the tag and the
element encodings but never appends the EndOfStream byte, even though
`Array.UnmarshalObject` requires one to stop: encoding `[Int32(1)]`
yields exactly the 6 bytes below (no trailing EOF tag 24), is not of the
claimed tag-elements-EOF shape, and decoding those 6 bytes back runs the
decode loop off the end of the buffer (a Go index-out-of-range panic). -/
theorem C1_array_encode_missing_eof :
    MarshalObject (.arr [.int32 1]) = [ArrayType, Int32Type, 0, 0, 0, 1] ∧
    MarshalObject (.arr [.int32 1]) ≠
      ArrayType :: (marshalList [.int32 1] ++ [EOFType]) ∧
    UnmarshalObject [ArrayType, Int32Type, 0, 0, 0, 1] = .oob := by
  have h1 : MarshalObject (.arr [.int32 1]) =
      [ArrayType, Int32Type, 0, 0, 0, 1] := by
    simp [MarshalObject, marshalList, putUint32, uint32OfInt32, ArrayType,
      Int32Type]
  refine ⟨h1, ?_, ?_⟩
  · rw [h1]
    simp [marshalList, MarshalObject, putUint32, uint32OfInt32, ArrayType,
      Int32Type, EOFType]
  · simp [UnmarshalObject, arrayLoop, UnmarshalInt32, int32OfUint32,
      getUint32, NullType, BoolType, Int64Type, Int32Type, FloatType,
      StringType, CharType, EOFType, NameType, ArrayType]

/-- Claim C4, counterexample: the byte stream below is an Array whose
single element position holds a Name (FieldName) encoding.  Array decode
does not fail with an invalid-structure error: it returns the Name marker
as a decoded element (the code's `Array.UnmarshalObject` loop has no
`IsInternal` check, unlike Document decode). -/
theorem C4_counterexample_name_element_accepted :
    UnmarshalObject [ArrayType, NameType, 97, 0, EOFType] =
      .ok (.arr [.name [97]], 4) ∧
    UnmarshalObject [ArrayType, NameType, 97, 0, EOFType] ≠
      .err .invalidDocument := by
  have h : UnmarshalObject [ArrayType, NameType, 97, 0, EOFType] =
      .ok (.arr [.name [97]], 4) := by
    simp [UnmarshalObject, arrayLoop, UnmarshalName, UnmarshalNameRaw,
      scanTerm, NullType, BoolType, Int64Type, Int32Type, FloatType,
      StringType, CharType, EOFType, NameType, ArrayType, NullTerm]
  exact ⟨h, by rw [h]; simp⟩

/-- Claim C4, amended: Array decode does not reject internal markers in
element position.  For every well-formed name `nm`, an Array stream whose
element position holds the Name encoding of `nm` decodes without error to
an Array containing that Name marker as its element (an EndOfStream tag
in element position instead terminates the array).  Only Document decode
rejects internal marker values. -/
theorem C4_array_decode_accepts_name_marker (nm : List Nat)
    (h : wfName nm = true) :
    UnmarshalObject (ArrayType :: (marshalName nm ++ [EOFType])) =
      .ok (.arr [.name nm], 1 + (nm.length + 2)) := by
  have hd : UnmarshalObject (ArrayType :: (marshalName nm ++ [EOFType])) =
      match arrayLoop (marshalName nm ++ [EOFType]) with
      | .ok (vs, n) => .ok (.arr vs, 1 + n)
      | .err e => .err e
      | .oob => .oob := by
    simp [UnmarshalObject, NullType, BoolType, Int64Type, Int32Type,
      FloatType, StringType, CharType, EOFType, NameType, ArrayType]
  rw [hd]
  have hcons : marshalName nm ++ [EOFType] =
      NameType :: (nm ++ 0 :: [EOFType]) := by
    simp [marshalName, NullTerm]
  have e1 : UnmarshalObject (NameType :: (nm ++ 0 :: [EOFType])) =
      .ok (.name nm, nm.length + 2) := by
    have hraw : UnmarshalNameRaw (NameType :: (nm ++ 0 :: [EOFType])) =
        .ok (nm, nm.length + 2) := by
      rw [← hcons]
      exact UnmarshalNameRaw_marshalName nm [EOFType] h
    have : UnmarshalObject (NameType :: (nm ++ 0 :: [EOFType])) =
        UnmarshalName (NameType :: (nm ++ 0 :: [EOFType])) := by
      simp [UnmarshalObject, NullType, BoolType, Int64Type, Int32Type,
        FloatType, StringType, CharType, EOFType, NameType, ArrayType]
    rw [this, UnmarshalName, hraw]
  have e2 : (NameType :: (nm ++ 0 :: [EOFType])).drop (nm.length + 2) =
      [EOFType] := by
    rw [← hcons]
    exact List.drop_left' (marshalName_length nm)
  have hNE : (NameType : Nat) ≠ EOFType := by decide
  rw [hcons]
  rw [arrayLoop]
  simp only [if_neg hNE, e1, e2]
  have e5 : ¬ (nm.length + 2 = 0) := by omega
  rw [dif_neg e5]
  have e6 : arrayLoop [EOFType] = .ok ([], 0) := by
    simp [arrayLoop]
  rw [e6]

/-- Claim C5 (code_bug): the claim states every decoder is length-safe,
returning InvalidLength on short or unterminated input and never reading
past the end of the buffer.  The code is not: `Bool.UnmarshalObject`
checks only `len(b) < 1` and then reads `b[1]`, so the 1-byte buffer
holding just the Bool tag indexes out of range (a Go runtime panic,
modelled `.oob`), both called directly and through the generic dispatch;
likewise the Array and Document decode loops read `b[count]` without an
upper bound, so a composite stream with no EndOfStream terminator runs
off the end of the buffer instead of returning InvalidLength. -/
theorem C5_decoders_read_out_of_bounds :
    UnmarshalBool [BoolType] = .oob ∧
    UnmarshalObject [BoolType] = .oob ∧
    UnmarshalObject [ArrayType] = .oob ∧
    (Document.unmarshalObject NewDocument [DocumentType]).2 = .oob := by
  refine ⟨by simp [UnmarshalBool, BoolType], ?_, ?_, ?_⟩
  · simp [UnmarshalObject, UnmarshalBool, NullType, BoolType, Int64Type,
      Int32Type, FloatType, StringType, CharType]
  · simp [UnmarshalObject, arrayLoop, NullType, BoolType, Int64Type,
      Int32Type, FloatType, StringType, CharType, EOFType, NameType,
      ArrayType]
  · simp [Document.unmarshalObject, docLoop, NewDocument, DocumentType]

/-- Claim C7, counterexample: the String value "a\x00" (bytes [97, 0]) is
representable in Go, and the encoder accepts it without validating the
absence of the embedded 0x00 (the spec itself flags this gap), but its
round trip fails: decode stops at the embedded terminator and returns the
shorter string [97] with count 3, not the original value with count 4. -/
theorem C7_counterexample_embedded_nul :
    ¬ (UnmarshalObject (MarshalObject (.str [97, 0])) =
        .ok (.str [97, 0], (MarshalObject (.str [97, 0])).length)) := by
  have h : UnmarshalObject (MarshalObject (.str [97, 0])) =
      .ok (.str [97], 3) := by
    simp [MarshalObject, UnmarshalObject, UnmarshalString, scanTerm,
      NullType, BoolType, Int64Type, Int32Type, FloatType, StringType,
      CharType, NullTerm]
  rw [h]
  simp

/-- Claim C7, amended: for every scalar value v — Null, Bool, Char,
Int32, Int64, Float (identified by its 64-bit pattern, which the codec
moves verbatim), or a String whose content has no embedded 0x00 byte
(`wfVal`) — decoding the encoding of v returns exactly (v, n) with n the
length in bytes of the encoding. -/
theorem C7_scalar_roundtrip (v : Val) (h : wfVal v = true) :
    UnmarshalObject (MarshalObject v) =
      .ok (v, (MarshalObject v).length) := by
  have := UnmarshalObject_marshal v h []
  simpa using this

/-- Witness for C7_scalar_roundtrip at v = Int64 42. -/
theorem C7_scalar_roundtrip_witness :
    wfVal (.int64 42) = true ∧
    UnmarshalObject (MarshalObject (.int64 42)) =
      .ok (.int64 42, (MarshalObject (.int64 42)).length) :=
  ⟨by decide, C7_scalar_roundtrip (.int64 42) (by decide)⟩

/-- Witness for C4_array_decode_accepts_name_marker at nm = [97]. -/
theorem C4_array_decode_accepts_name_marker_witness :
    wfName [97] = true ∧
    UnmarshalObject (ArrayType :: (marshalName [97] ++ [EOFType])) =
      .ok (.arr [.name [97]], 1 + ([97].length + 2)) :=
  ⟨by decide, C4_array_decode_accepts_name_marker [97] (by decide)⟩

theorem kvInsert_ne_nil (m : KV) (k : List Nat) (v : Val) :
    kvInsert m k v ≠ [] := by
  cases m with
  | nil => simp [kvInsert]
  | cons p t =>
    obtain ⟨k', v'⟩ := p
    by_cases hk : k' = k <;> simp [kvInsert, hk]

theorem kvInsertAll_ne_nil (fs : KV) :
    ∀ m : KV, m ≠ [] → kvInsertAll m fs ≠ [] := by
  induction fs with
  | nil => intro m hm; simpa [kvInsertAll] using hm
  | cons p t ih =>
    intro m _
    obtain ⟨k, v⟩ := p
    simp only [kvInsertAll]
    exact ih (kvInsert m k v) (kvInsert_ne_nil m k v)

theorem kvGet_kvInsertAll_nil_none (fs : KV) (k : List Nat)
    (h : kvGet fs k = none) : kvGet (kvInsertAll [] fs) k = none := by
  rw [kvGet_kvInsertAll_not_mem fs [] k ((kvGet_none_iff fs k).mp h)]
  simp [kvGet]

/-- Claim C2, counterexample: decoding the well-formed document stream
for the single field {"a": Int64(1)} (which lacks an "id" field) into a
fresh wrapper returns the InvalidDocument error, yet the wrapper's field
map is no longer the empty map it was before the call: the decoded field
"a" is visible in it.  Decode is therefore not atomic. -/
theorem C2_counterexample_partial_mutation :
    (Document.unmarshalObject NewDocument (docBytes [([97], .int64 1)])).2 =
      .err .invalidDocument ∧
    (Document.unmarshalObject NewDocument (docBytes [([97], .int64 1)])).1.kv ≠
      NewDocument.kv := by
  have h := documentUnmarshal_docBytes [([97], .int64 1)] (by decide)
  rw [h]
  constructor
  · simp [kvInsertAll, kvInsert, kvGet, idKey]
  · simp [kvInsertAll, kvInsert, NewDocument]

/-- Claim C2, amended: Document decode is not atomic.  The Go method
inserts each decoded field into the wrapper's live map as it goes, so a
decode that fails can leave partially decoded fields visible to the
caller.  Precisely: for every nonempty well-formed field list with no
"id" key, decoding its encoding into a fresh wrapper fails with
InvalidDocument while the wrapper's map now holds all the decoded fields
(and in particular is no longer empty). -/
theorem C2_decode_failure_leaves_partial_fields (fs : KV)
    (hwf : wfFields fs = true) (hnoid : kvGet fs idKey = none)
    (hne : fs ≠ []) :
    (Document.unmarshalObject NewDocument (docBytes fs)).2 =
      .err .invalidDocument ∧
    (Document.unmarshalObject NewDocument (docBytes fs)).1.kv =
      kvInsertAll [] fs ∧
    kvInsertAll [] fs ≠ [] := by
  have h := documentUnmarshal_docBytes fs hwf
  have hid : kvGet (kvInsertAll [] fs) idKey = none :=
    kvGet_kvInsertAll_nil_none fs idKey hnoid
  rw [h]
  refine ⟨by simp [hid], by simp, ?_⟩
  match fs, hne with
  | (k, v) :: t, _ =>
    simp only [kvInsertAll]
    exact kvInsertAll_ne_nil t (kvInsert [] k v) (kvInsert_ne_nil [] k v)

/-- Witness for C2_decode_failure_leaves_partial_fields at the field
list {"a": Int64(1)}. -/
theorem C2_decode_failure_leaves_partial_fields_witness :
    wfFields [([97], .int64 1)] = true ∧
    kvGet [([97], Val.int64 1)] idKey = none ∧
    ([([97], Val.int64 1)] : KV) ≠ [] ∧
    ((Document.unmarshalObject NewDocument
        (docBytes [([97], .int64 1)])).2 = .err .invalidDocument ∧
     (Document.unmarshalObject NewDocument
        (docBytes [([97], .int64 1)])).1.kv =
       kvInsertAll [] [([97], .int64 1)] ∧
     kvInsertAll [] [([97], Val.int64 1)] ≠ []) :=
  ⟨by decide, by rfl, by simp,
   C2_decode_failure_leaves_partial_fields [([97], .int64 1)]
     (by decide) (by rfl) (by simp)⟩

theorem nodup_filter_keys (fs : KV) (p : List Nat × Val → Bool)
    (hnd : (fs.map Prod.fst).Nodup) :
    ((fs.filter p).map Prod.fst).Nodup :=
  hnd.sublist ((fs.filter_sublist).map Prod.fst)

/-- Claim C3, counterexample: for the document {"id": Int64(1)} projected
with key set {"id"}, the byte count Project returns is NOT the full
encoded length: the encoding is 15 bytes but Project returns 14, because
the loop stops at the EndOfStream byte without counting it. -/
theorem C3_counterexample_count_excludes_eof :
    (Document.project NewDocument (docBytes [(idKey, .int64 1)])
        [idKey]).2 ≠
      .ok ((docBytes [(idKey, .int64 1)]).length) := by
  have hp := documentProject_docBytes [(idKey, .int64 1)] (by decide)
    [idKey] (by simp)
  rw [hp]
  simp [docBytes, encodeFields, marshalName, MarshalObject, putUint64,
    uint64OfInt64, idKey]

/-- Claim C3, amended: for every well-formed encoded Document (a
well-formed field list with distinct keys including "id") and every
non-empty requested key set, Project inserts into the fresh wrapper's map
exactly the fields whose key is in the requested set — fields outside it
are decoded but never inserted — and the byte count Project returns
equals the full document's encoded length MINUS ONE (the EndOfStream
terminator byte is not counted), which is also exactly the count returned
by the full unprojected decode of the same bytes. -/
theorem C3_projection_fields_and_count (fs : KV)
    (hwf : wfFields fs = true) (hnd : (fs.map Prod.fst).Nodup)
    (hid : (kvGet fs idKey).isSome = true)
    (keys : List (List Nat)) (hK : keys ≠ []) :
    (Document.project NewDocument (docBytes fs) keys).1.kv =
      fs.filter (fun p => inKey p.1 keys) ∧
    (Document.project NewDocument (docBytes fs) keys).2 =
      .ok ((docBytes fs).length - 1) ∧
    (Document.unmarshalObject NewDocument (docBytes fs)).2 =
      .ok ((docBytes fs).length - 1) := by
  have hp := documentProject_docBytes fs hwf keys hK
  have hu := documentUnmarshal_docBytes fs hwf
  have hfilter : kvInsertAll [] (fs.filter (fun p => inKey p.1 keys)) =
      fs.filter (fun p => inKey p.1 keys) :=
    kvInsertAll_nil _ (nodup_filter_keys fs _ hnd)
  have hgetid : (kvGet (kvInsertAll [] fs) idKey).isSome = true := by
    rw [kvInsertAll_nil fs hnd]; exact hid
  refine ⟨?_, ?_, ?_⟩
  · rw [hp]; simp [hfilter]
  · rw [hp]; simp [docBytes_length]; omega
  · rw [hu]; simp [hgetid, docBytes_length]; omega

/-- Witness for C3_projection_fields_and_count at the document
{"id": Int64(1), "n": Bool(true)} with requested key set {"n"}. -/
theorem C3_projection_fields_and_count_witness :
    wfFields [(idKey, .int64 1), ([110], .bool true)] = true ∧
    (([(idKey, Val.int64 1), ([110], Val.bool true)] : KV).map
      Prod.fst).Nodup ∧
    (kvGet [(idKey, Val.int64 1), ([110], Val.bool true)] idKey).isSome =
      true ∧
    ([[110]] : List (List Nat)) ≠ [] ∧
    ((Document.project NewDocument
        (docBytes [(idKey, .int64 1), ([110], .bool true)]) [[110]]).1.kv =
      ([(idKey, Val.int64 1), ([110], Val.bool true)] : KV).filter
        (fun p => inKey p.1 [[110]]) ∧
     (Document.project NewDocument
        (docBytes [(idKey, .int64 1), ([110], .bool true)]) [[110]]).2 =
      .ok ((docBytes [(idKey, .int64 1), ([110], .bool true)]).length - 1) ∧
     (Document.unmarshalObject NewDocument
        (docBytes [(idKey, .int64 1), ([110], .bool true)])).2 =
      .ok ((docBytes [(idKey, .int64 1), ([110], .bool true)]).length - 1)) :=
  ⟨by decide, by decide, by rfl, by simp,
   C3_projection_fields_and_count [(idKey, .int64 1), ([110], .bool true)]
     (by decide) (by decide) (by rfl) [[110]] (by simp)⟩

/-- Claim C6, counterexample: the Document {"id": String("a\x00b")}
(value bytes [97, 0, 98], containing an embedded 0x00) serializes
without complaint, but decoding the produced bytes does not reproduce the
document: the string decoder stops at the embedded terminator, the
cursor desynchronizes, and decode fails with ErrInvalidType. -/
theorem C6_counterexample_embedded_nul_value :
    GenericDocumentUnmarshaler ⟨[(idKey, .str [97, 0, 98])], false, false⟩ =
      .ok (docBytes [(idKey, .str [97, 0, 98])]) ∧
    (Document.unmarshalObject NewDocument
        (docBytes [(idKey, .str [97, 0, 98])])).2 = .err .invalidType := by
  constructor
  · simp [GenericDocumentUnmarshaler, kvGet, idKey, docBytes]
  · have hb : docBytes [(idKey, .str [97, 0, 98])] =
        [10, 25, 105, 100, 0, 5, 97, 0, 98, 0, 24] := by
      simp [docBytes, encodeFields, marshalName, MarshalObject, idKey,
        NullTerm, DocumentType, EOFType, NameType, StringType]
    rw [hb]
    simp [Document.unmarshalObject, docLoop, UnmarshalNameRaw,
      UnmarshalObject, UnmarshalString, scanTerm, typeOf, IsInternal,
      kvInsert, kvGet, NewDocument, idKey, NullTerm, NullType, BoolType,
      Int64Type, Int32Type, FloatType, StringType, CharType, EOFType,
      NameType, ArrayType, DocumentType, LastType]

/-- Claim C6, amended: for every Document wrapper with a nonempty field
list that binds "id", has distinct keys, and holds only well-formed
scalar values (no internal markers, no embedded 0x00 in string contents
or field names; array values are excluded because Array encode omits its
EndOfStream terminator — see C1), serializing and then decoding into a
fresh wrapper reproduces the field list exactly — hence an identical
field-name-to-value mapping — with an identical ID(), and succeeds with
the count that full decode returns. -/
theorem C6_document_roundtrip (fs : KV) (hwf : wfFields fs = true)
    (hnd : (fs.map Prod.fst).Nodup) (hid : (kvGet fs idKey).isSome = true)
    (_hne : fs ≠ []) :
    GenericDocumentUnmarshaler ⟨fs, false, false⟩ = .ok (docBytes fs) ∧
    Document.unmarshalObject NewDocument (docBytes fs) =
      (⟨fs, false, false⟩, .ok ((docBytes fs).length - 1)) ∧
    (Document.unmarshalObject NewDocument (docBytes fs)).1.id =
      Document.id ⟨fs, false, false⟩ := by
  have hu := documentUnmarshal_docBytes fs hwf
  have hins := kvInsertAll_nil fs hnd
  have hgetid : (kvGet (kvInsertAll [] fs) idKey).isSome = true := by
    rw [hins]; exact hid
  refine ⟨?_, ?_, ?_⟩
  · simp [GenericDocumentUnmarshaler, hid, docBytes]
  · rw [hu]
    rw [hins]
    simp only [hid, eq_self_iff_true, if_true, docBytes_length]
    refine Prod.ext rfl ?_
    simp only [Res.ok.injEq]
    omega
  · rw [hu]
    simp [hgetid, hins, Document.id]

/-- Witness for C6_document_roundtrip at the document
{"id": Int64(7), "n": String("x")}. -/
theorem C6_document_roundtrip_witness :
    wfFields [(idKey, .int64 7), ([110], .str [120])] = true ∧
    (([(idKey, Val.int64 7), ([110], Val.str [120])] : KV).map
      Prod.fst).Nodup ∧
    (kvGet [(idKey, Val.int64 7), ([110], Val.str [120])] idKey).isSome =
      true ∧
    ([(idKey, Val.int64 7), ([110], Val.str [120])] : KV) ≠ [] ∧
    (GenericDocumentUnmarshaler
        ⟨[(idKey, .int64 7), ([110], .str [120])], false, false⟩ =
      .ok (docBytes [(idKey, .int64 7), ([110], .str [120])]) ∧
     Document.unmarshalObject NewDocument
        (docBytes [(idKey, .int64 7), ([110], .str [120])]) =
      (⟨[(idKey, .int64 7), ([110], .str [120])], false, false⟩,
       .ok ((docBytes [(idKey, .int64 7), ([110], .str [120])]).length - 1)) ∧
     (Document.unmarshalObject NewDocument
        (docBytes [(idKey, .int64 7), ([110], .str [120])])).1.id =
      Document.id ⟨[(idKey, .int64 7), ([110], .str [120])], false, false⟩) :=
  ⟨by decide, by decide, by rfl, by simp,
   C6_document_roundtrip [(idKey, .int64 7), ([110], .str [120])]
     (by decide) (by decide) (by rfl) (by simp)⟩

/-- Claim C8: the "id" invariant is enforced on both directions of the
codec.  For every well-formed encoded field list lacking an "id" key,
decoding its byte stream into a fresh wrapper fails with
ErrInvalidDocument; and serializing a wrapper whose map has no "id"
binding fails with ErrInvalidDocument (GenericDocumentUnmarshaler checks
`doc.ID() == nil` before emitting any field). -/
theorem C8_id_invariant_both_directions (fs : KV)
    (hwf : wfFields fs = true) (hnoid : kvGet fs idKey = none) :
    (Document.unmarshalObject NewDocument (docBytes fs)).2 =
      .err .invalidDocument ∧
    GenericDocumentUnmarshaler ⟨fs, false, false⟩ =
      .err .invalidDocument := by
  have hu := documentUnmarshal_docBytes fs hwf
  have hid := kvGet_kvInsertAll_nil_none fs idKey hnoid
  constructor
  · rw [hu]; simp [hid]
  · simp [GenericDocumentUnmarshaler, hnoid]

/-- Witness for C8_id_invariant_both_directions at the field list
{"n": Bool(true)}. -/
theorem C8_id_invariant_both_directions_witness :
    wfFields [([110], .bool true)] = true ∧
    kvGet [([110], Val.bool true)] idKey = none ∧
    ((Document.unmarshalObject NewDocument
        (docBytes [([110], .bool true)])).2 = .err .invalidDocument ∧
     GenericDocumentUnmarshaler ⟨[([110], .bool true)], false, false⟩ =
      .err .invalidDocument) :=
  ⟨by decide, by rfl,
   C8_id_invariant_both_directions [([110], .bool true)]
     (by decide) (by rfl)⟩

/-- Claim C9: for every wrapper whose static flag is set (as
NewStaticDocument constructs it; nothing ever clears the flag), both Set
and Del fail with ErrStaticDocument for any key and value, returning the
wrapper unchanged — in particular its field map is untouched. -/
theorem C9_static_document_rejects_mutation (d : Document)
    (hs : d.static = true) (k : List Nat) (v : Val) :
    Document.set d k v = (d, some .staticDocument) ∧
    Document.del d k = (d, some .staticDocument) := by
  unfold Document.set Document.del
  rw [hs]
  simp

/-- Witness for C9_static_document_rejects_mutation at a freshly
constructed static wrapper. -/
theorem C9_static_document_rejects_mutation_witness :
    NewStaticDocument.static = true ∧
    (Document.set NewStaticDocument [97] .null =
      (NewStaticDocument, some .staticDocument) ∧
     Document.del NewStaticDocument [97] =
      (NewStaticDocument, some .staticDocument)) :=
  ⟨by rfl, C9_static_document_rejects_mutation NewStaticDocument rfl [97] .null⟩

/-- Claim C10: Project does not enforce the "id" invariant that full
decode enforces.  For every well-formed encoded field list lacking an
"id" key and every non-empty requested key set, Project on a fresh
wrapper succeeds, returning a byte count and no error, while full decode
(UnmarshalObject) of the very same bytes fails with ErrInvalidDocument. -/
theorem C10_project_skips_id_invariant (fs : KV)
    (hwf : wfFields fs = true) (hnoid : kvGet fs idKey = none)
    (keys : List (List Nat)) (hK : keys ≠ []) :
    (Document.project NewDocument (docBytes fs) keys).2 =
      .ok ((docBytes fs).length - 1) ∧
    (Document.unmarshalObject NewDocument (docBytes fs)).2 =
      .err .invalidDocument := by
  have hp := documentProject_docBytes fs hwf keys hK
  have hu := documentUnmarshal_docBytes fs hwf
  have hid := kvGet_kvInsertAll_nil_none fs idKey hnoid
  constructor
  · rw [hp]; simp [docBytes_length]; omega
  · rw [hu]; simp [hid]

/-- Witness for C10_project_skips_id_invariant at the field list
{"n": Bool(true)} with requested key set {"n"}. -/
theorem C10_project_skips_id_invariant_witness :
    wfFields [([110], .bool true)] = true ∧
    kvGet [([110], Val.bool true)] idKey = none ∧
    ([[110]] : List (List Nat)) ≠ [] ∧
    ((Document.project NewDocument (docBytes [([110], .bool true)])
        [[110]]).2 =
      .ok ((docBytes [([110], .bool true)]).length - 1) ∧
     (Document.unmarshalObject NewDocument
        (docBytes [([110], .bool true)])).2 = .err .invalidDocument) :=
  ⟨by decide, by rfl, by simp,
   C10_project_skips_id_invariant [([110], .bool true)]
     (by decide) (by rfl) [[110]] (by simp)⟩
